import Mathlib

/-!
Verification of the thematic-analysis and insight-generation core of the
bank-reviews pipeline (src/analysis/thematic_analysis.py and
src/analysis/generate_insights.py), as a shallow embedding in Lean.

Strings are embedded as Lean `String`; Python substring containment
(`pat in s`) is embedded as containment on the underlying character lists;
Python `str.lower` as a character-wise lower-casing; review records as a
`Row` structure carrying the columns the analysed functions read.
-/

namespace BankReviews

/-- Python `pat in s` (substring containment) on character lists. -/
def substrOf (p : List Char) : List Char → Bool
  | [] => p.isEmpty
  | c :: s => p.isPrefixOf (c :: s) || substrOf p s

/-- Substring containment on strings, `inStr p s` means `p in s` in Python. -/
def inStr (p s : String) : Bool := substrOf p.data s.data

/-- Python `s.lower()`: character-wise lower-casing. -/
def lowercase (s : String) : String := String.mk (s.data.map Char.toLower)

/-- Trigger substrings of the `Account Access Issues` taxonomy entry. -/
def accountAccessTriggers : List String :=
  ["login", "password", "access", "account", "sign", "authentication",
   "verify", "security", "locked", "blocked"]

/-- Trigger substrings of the `Transaction Performance` taxonomy entry. -/
def transactionTriggers : List String :=
  ["transfer", "transaction", "payment", "slow", "fast", "speed",
   "timeout", "delay", "processing", "complete", "failed"]

/-- Trigger substrings of the `User Interface & Experience` taxonomy entry. -/
def uiTriggers : List String :=
  ["ui", "interface", "design", "layout", "navigation", "button",
   "screen", "display", "user", "experience", "ux", "easy", "simple"]

/-- Trigger substrings of the `Customer Support` taxonomy entry. -/
def customerSupportTriggers : List String :=
  ["support", "help", "service", "customer", "contact", "response",
   "assistance", "issue", "problem", "complaint", "resolve"]

/-- Trigger substrings of the `App Reliability` taxonomy entry. -/
def reliabilityTriggers : List String :=
  ["crash", "error", "bug", "glitch", "freeze", "hang", "close",
   "restart", "unstable", "reliable", "stable", "working"]

/-- Trigger substrings of the `Feature Requests` taxonomy entry. -/
def featureTriggers : List String :=
  ["feature", "add", "want", "need", "missing", "request", "suggest",
   "improve", "enhance", "option", "functionality"]

/-- Trigger substrings of the `Security & Privacy` taxonomy entry. -/
def securityTriggers : List String :=
  ["security", "privacy", "safe", "secure", "protection", "data",
   "personal", "information", "trust", "fraud"]

/-- The fixed taxonomy `theme_patterns` of `identify_themes_manual`, in
declaration order (Python dicts preserve insertion order). -/
def theme_patterns : List (String × List String) :=
  [("Account Access Issues", accountAccessTriggers),
   ("Transaction Performance", transactionTriggers),
   ("User Interface & Experience", uiTriggers),
   ("Customer Support", customerSupportTriggers),
   ("App Reliability", reliabilityTriggers),
   ("Feature Requests", featureTriggers),
   ("Security & Privacy", securityTriggers)]

/-- Whether some trigger of one taxonomy entry occurs in the (already
lower-cased) keyword string: the inner loop of `identify_themes_manual`. -/
def themeMatches (kwLower : String) (patterns : List String) : Bool :=
  patterns.any (fun p => inStr p kwLower)

/-- Theme assignment of one keyword string, the loop body of
`identify_themes_manual`: empty keywords give `""`; otherwise the names of
all matching taxonomy entries are collected in declaration order and the
first is returned, `Other` if none matched. -/
def assignTheme (keywords : String) : String :=
  if keywords = "" then ""
  else
    let kwLower := lowercase keywords
    let matched := (theme_patterns.filter (fun tp => themeMatches kwLower tp.2)).map Prod.fst
    match matched with
    | [] => "Other"
    | t :: _ => t

/-- `identify_themes_manual`: per-review theme assignment over the keyword
column (the printing of the distribution is side effect only). -/
def identify_themes_manual (keywords_list : List String) : List String :=
  keywords_list.map assignTheme

/-- First occurrences of the values of a list, in order of first
occurrence: the grouping order underlying `pandas.value_counts`. -/
def uniqueFirst : List String → List String
  | [] => []
  | x :: xs => x :: (uniqueFirst xs).filter (fun y => y ≠ x)

/-- `identify_themes_by_bank`: for each distinct bank, the keyword strings
at that bank's row positions are classified by `identify_themes_manual`. -/
def identify_themes_by_bank (banks : List String) (keywords_list : List String) :
    List (String × List String) :=
  (uniqueFirst banks).map (fun b =>
    (b, identify_themes_manual
          (((banks.zip keywords_list).filter (fun r => r.1 == b)).map Prod.snd)))

lemma head?_filter_eq_find? (p : α → Bool) :
    ∀ l : List α, (l.filter p).head? = l.find? p := by
  intro l
  induction l with
  | nil => rfl
  | cons a l ih =>
    by_cases h : p a
    · simp [List.filter_cons, h]
    · simp [List.filter_cons, h, ih]

lemma assignTheme_of_find? (kw : String) (tp : String × List String)
    (hne : kw ≠ "")
    (hfind : theme_patterns.find? (fun q => themeMatches (lowercase kw) q.2) = some tp) :
    assignTheme kw = tp.1 := by
  unfold assignTheme
  rw [if_neg hne]
  have h1 : (theme_patterns.filter (fun q => themeMatches (lowercase kw) q.2)).head? = some tp := by
    rw [head?_filter_eq_find?]
    exact hfind
  rcases hfil : theme_patterns.filter (fun q => themeMatches (lowercase kw) q.2) with _ | ⟨t, rest⟩
  · rw [hfil] at h1
    simp at h1
  · rw [hfil] at h1
    simp only [List.head?] at h1
    cases h1
    simp [hfil]

/-- Claim C1: for a non-empty keyword string, the assigned theme is the
first taxonomy entry in declaration order with a matching trigger
(`find?` over `theme_patterns`); in particular a keyword string matching
the triggers of both `Account Access Issues` (declared first) and
`Customer Support` (declared later) is assigned `Account Access Issues`. -/
theorem c1_first_match_wins :
    (∀ (kw : String) (tp : String × List String), kw ≠ "" →
      theme_patterns.find? (fun q => themeMatches (lowercase kw) q.2) = some tp →
      assignTheme kw = tp.1)
    ∧ (∀ kw : String, kw ≠ "" →
      themeMatches (lowercase kw) accountAccessTriggers = true →
      themeMatches (lowercase kw) customerSupportTriggers = true →
      assignTheme kw = "Account Access Issues") := by
  constructor
  · exact fun kw tp hne hfind => assignTheme_of_find? kw tp hne hfind
  · intro kw hne hacc _
    apply assignTheme_of_find? kw ("Account Access Issues", accountAccessTriggers) hne
    simp [theme_patterns, List.find?, hacc]

/-- Witness for C1 at the concrete keyword string `"login support"`, which
contains the trigger `login` of `Account Access Issues` and the trigger
`support` of `Customer Support`. -/
theorem c1_witness : assignTheme "login support" = "Account Access Issues" :=
  c1_first_match_wins.2 "login support" (by decide) (by decide) (by decide)

/-! ### Keyword extraction (`extract_keywords_tfidf`)

The TF-IDF weights themselves come from scikit-learn; the extractor's own
logic (per-document selection of keywords from a weight row, and the
degenerate-corpus fallback) is embedded.  A fitted vectorizer is a
vocabulary together with one weight row per document; a failed fit is the
`Except.error` case (the Python `except` branch).  `numpy.argsort` is
embedded as a stable ascending sort of the index range, which matches
numpy's behaviour on the small arrays involved. -/

/-- Result of a successful `TfidfVectorizer.fit_transform`: the vocabulary
(`get_feature_names_out`) and a dense weight row per document. -/
structure TfidfResult where
  feature_names : List String
  rows : List (List ℚ)

/-- Ascending comparison of two indices by their scores: the comparator of
the embedded `scores.argsort()`. -/
def ascLE (s : List ℚ) (i j : ℕ) : Bool :=
  decide (s.getD i 0 ≤ s.getD j 0)

/-- Stable ascending argsort, the embedding of `scores.argsort()`. -/
def argsort (s : List ℚ) : List ℕ :=
  (List.range s.length).mergeSort (ascLE s)

/-- Per-document keyword selection of `extract_keywords_tfidf`:
`scores.argsort()[-10:][::-1]`, keep positive-weight indices, map to
vocabulary terms, keep the first 5. -/
def topKeywords (names : List String) (scores : List ℚ) : List String :=
  let top_indices := ((argsort scores).drop (scores.length - 10)).reverse
  ((top_indices.filter (fun i => decide (0 < scores.getD i 0))).map
    (fun i => names.getD i "")).take 5

/-- Python truthiness of `text.strip()`: true when some character is not
whitespace. -/
def hasContent (t : String) : Bool := t.data.any (fun c => !c.isWhitespace)

/-- `extract_keywords_tfidf` after the corpus has been vectorized: on
success each document with non-blank text gets its joined top keywords and
blank documents get `""`; on a vectorization failure every document gets
`""` and the vocabulary is empty (the `except` branch). -/
def extract_keywords_tfidf (texts : List String) (fit : Except String TfidfResult) :
    List String × List String :=
  match fit with
  | Except.ok r =>
      ((texts.zip r.rows).map (fun p =>
          if hasContent p.1 then String.intercalate ", " (topKeywords r.feature_names p.2)
          else ""),
       r.feature_names)
  | Except.error _ => (texts.map (fun _ => ""), [])

/-- Claim C7: when vectorization fails, the extractor returns an empty
keyword set for every document and an empty vocabulary, and processing
continues (the failure is a value, not a propagated exception). -/
theorem c7_degenerate_corpus_recovery (texts : List String) (e : String) :
    extract_keywords_tfidf texts (Except.error e) =
      (List.replicate texts.length "", []) := by
  simp only [extract_keywords_tfidf, Prod.mk.injEq, and_true]
  induction texts with
  | nil => rfl
  | cons t ts ih => simp [List.replicate, ih]

/-! ### Order-theoretic facts about `argsort` -/

lemma ascLE_trans (s : List ℚ) : ∀ (a b c : ℕ), ascLE s a b → ascLE s b c → ascLE s a c := by
  intro a b c h1 h2
  simp only [ascLE, decide_eq_true_eq] at *
  exact le_trans h1 h2

lemma ascLE_total (s : List ℚ) : ∀ (a b : ℕ), ascLE s a b || ascLE s b a := by
  intro a b
  simp only [ascLE, Bool.or_eq_true, decide_eq_true_eq]
  exact le_total _ _

lemma pair_sublist_range {j i n : ℕ} (hji : j < i) (hin : i < n) :
    List.Sublist [j, i] (List.range n) := by
  induction n with
  | zero => omega
  | succ m ih =>
    rw [List.range_succ]
    rcases Nat.lt_or_ge i m with h | h
    · exact (ih h).trans (List.sublist_append_left _ _)
    · have hi : i = m := by omega
      subst hi
      have h1 : List.Sublist [j] (List.range i) := List.singleton_sublist.mpr (List.mem_range.mpr hji)
      exact List.Sublist.append h1 (List.Sublist.refl [i])

lemma pair_sublist_nodup_antisymm :
    ∀ {A : List ℕ} (_ : A.Nodup) {x y : ℕ}, List.Sublist [x, y] A → List.Sublist [y, x] A → x = y := by
  intro A
  induction A with
  | nil =>
    intro _ x y h1 _
    exact absurd h1 (by simp)
  | cons a A ih =>
    intro hnd x y h1 h2
    have ha : a ∉ A := (List.nodup_cons.mp hnd).1
    have hA : A.Nodup := (List.nodup_cons.mp hnd).2
    cases h1 with
    | cons _ h1' =>
      cases h2 with
      | cons _ h2' => exact ih hA h1' h2'
      | cons₂ h2' =>
        have : a ∈ A := (List.Sublist.subset h1') (by simp)
        exact absurd this ha
    | cons₂ h1' =>
      cases h2 with
      | cons _ h2' =>
        have hx : a ∈ A := (List.Sublist.subset h2') (by simp)
        exact absurd hx ha
      | cons₂ h2' => rfl

lemma argsort_nodup (s : List ℚ) : (argsort s).Nodup :=
  (List.mergeSort_perm (List.range s.length) (ascLE s)).symm.nodup (List.nodup_range _)

lemma argsort_mem_lt (s : List ℚ) {i : ℕ} (h : i ∈ argsort s) : i < s.length := by
  have : i ∈ List.range s.length := (List.mergeSort_perm _ _).subset h
  exact List.mem_range.mp this

/-- Stability of the embedded `argsort`: the result is sorted by score
with equal scores kept in index order. -/
lemma argsort_pairwise (s : List ℚ) :
    (argsort s).Pairwise
      (fun i j => s.getD i 0 < s.getD j 0 ∨ (s.getD i 0 = s.getD j 0 ∧ i ≤ j)) := by
  rw [List.pairwise_iff_forall_sublist]
  intro x y hsub
  have hsorted : (argsort s).Pairwise (fun i j => ascLE s i j) :=
    List.sorted_mergeSort (ascLE_trans s) (ascLE_total s) (List.range s.length)
  have hxy : s.getD x 0 ≤ s.getD y 0 := by
    have := List.pairwise_iff_forall_sublist.mp hsorted hsub
    simpa [ascLE] using this
  rcases lt_or_eq_of_le hxy with hlt | heq
  · exact Or.inl hlt
  · refine Or.inr ⟨heq, ?_⟩
    by_contra hyx
    push_neg at hyx
    have hx_lt : x < s.length :=
      argsort_mem_lt s (hsub.subset (by simp))
    have hpair : List.Sublist [y, x] (List.range s.length) := pair_sublist_range hyx hx_lt
    have hyx_le : ascLE s y x := by
      simp only [ascLE, decide_eq_true_eq]
      exact heq.ge
    have hsub2 : List.Sublist [y, x] (argsort s) :=
      List.pair_sublist_mergeSort (ascLE_trans s) (ascLE_total s) hyx_le hpair
    have := pair_sublist_nodup_antisymm (argsort_nodup s) hsub hsub2
    omega

/-- Descending comparison by score with ties broken towards the larger
index: the order in which the code actually emits tied keywords. -/
def descLE (s : List ℚ) (i j : ℕ) : Bool :=
  decide (s.getD j 0 < s.getD i 0) || (decide (s.getD i 0 = s.getD j 0) && decide (j ≤ i))

lemma descLE_trans (s : List ℚ) : ∀ (a b c : ℕ), descLE s a b → descLE s b c → descLE s a c := by
  intro a b c h1 h2
  simp only [descLE, Bool.or_eq_true, Bool.and_eq_true, decide_eq_true_eq] at *
  rcases h1 with h1 | ⟨h1e, h1i⟩ <;> rcases h2 with h2 | ⟨h2e, h2i⟩
  · exact Or.inl (lt_trans h2 h1)
  · exact Or.inl (h2e ▸ h1)
  · exact Or.inl (h1e ▸ h2)
  · exact Or.inr ⟨h1e.trans h2e, le_trans h2i h1i⟩

lemma descLE_total (s : List ℚ) : ∀ (a b : ℕ), descLE s a b || descLE s b a := by
  intro a b
  simp only [descLE, Bool.or_eq_true, Bool.and_eq_true, decide_eq_true_eq]
  rcases lt_trichotomy (s.getD a 0) (s.getD b 0) with h | h | h
  · exact Or.inr (Or.inl h)
  · rcases Nat.le_total b a with hba | hab
    · exact Or.inl (Or.inr ⟨h, hba⟩)
    · exact Or.inr (Or.inr ⟨h.symm, hab⟩)
  · exact Or.inl (Or.inl h)

lemma descLE_antisymm (s : List ℚ) {a b : ℕ}
    (h1 : descLE s a b = true) (h2 : descLE s b a = true) : a = b := by
  simp only [descLE, Bool.or_eq_true, Bool.and_eq_true, decide_eq_true_eq] at h1 h2
  rcases h1 with h1 | ⟨h1e, h1i⟩ <;> rcases h2 with h2 | ⟨h2e, h2i⟩
  · exact absurd h1 (not_lt_of_gt h2)
  · exact absurd h1 (h2e ▸ lt_irrefl _)
  · exact absurd h2 (h1e ▸ lt_irrefl _)
  · omega

/-- Descending stable argsort (larger index first on ties). -/
def argsortDesc (s : List ℚ) : List ℕ :=
  (List.range s.length).mergeSort (descLE s)

lemma argsortDesc_eq_reverse_argsort (s : List ℚ) :
    argsortDesc s = (argsort s).reverse := by
  have hanti : ∀ (a b : ℕ), a ∈ argsortDesc s → b ∈ (argsort s).reverse →
      descLE s a b = true → descLE s b a = true → a = b :=
    fun a b _ _ hab hba => descLE_antisymm s hab hba
  apply List.Perm.eq_of_sorted hanti
  · exact List.sorted_mergeSort (descLE_trans s) (descLE_total s) (List.range s.length)
  · rw [List.pairwise_reverse]
    refine (argsort_pairwise s).imp ?_
    intro i j h
    simp only [descLE, Bool.or_eq_true, Bool.and_eq_true, decide_eq_true_eq]
    rcases h with h | ⟨he, hi⟩
    · exact Or.inl h
    · exact Or.inr ⟨he.symm, hi⟩
  · exact (List.mergeSort_perm _ _).trans
      ((List.mergeSort_perm _ _).symm.trans (List.reverse_perm _).symm)

/-- The claim C5 selection as amended: terms with the top 10 weights in
descending order, ties broken by reverse vocabulary order (larger index
first), zero-weight terms excluded, truncated to the top 5. -/
def topKeywords_amended (names : List String) (scores : List ℚ) : List String :=
  ((((argsortDesc scores).take 10).filter (fun i => decide (0 < scores.getD i 0))).map
    (fun i => names.getD i "")).take 5

/-- Descending comparison by score with ties broken towards the SMALLER
index (vocabulary order), as claim C5 states it. -/
def tieVocabLE (s : List ℚ) (i j : ℕ) : Bool :=
  decide (s.getD j 0 < s.getD i 0) || (decide (s.getD i 0 = s.getD j 0) && decide (i ≤ j))

/-- The claim C5 selection as written: ties broken by vocabulary order. -/
def topKeywords_claim (names : List String) (scores : List ℚ) : List String :=
  (((((List.range scores.length).mergeSort (tieVocabLE scores)).take 10).filter
      (fun i => decide (0 < scores.getD i 0))).map (fun i => names.getD i "")).take 5

lemma topKeywords_eq_amended (names : List String) (scores : List ℚ) :
    topKeywords names scores = topKeywords_amended names scores := by
  have hlen : (argsort scores).length = scores.length := by
    simp [argsort]
  have hidx : ((argsort scores).drop (scores.length - 10)).reverse =
      (argsortDesc scores).take 10 := by
    rw [argsortDesc_eq_reverse_argsort, List.reverse_drop, hlen]
    rcases Nat.le_total 10 scores.length with h | h
    · congr 1
      omega
    · have h1 : scores.length - 10 = 0 := by omega
      rw [h1, Nat.sub_zero]
      have hrl : (argsort scores).reverse.length = scores.length := by simp [hlen]
      rw [List.take_of_length_le (by omega), List.take_of_length_le (by omega)]
  unfold topKeywords topKeywords_amended
  rw [hidx]

/-- Claim C5 counterexample: on the two-term vocabulary `["aa", "bb"]`
with equal weights, the code emits `bb` before `aa` (reverse vocabulary
order), while the claim's vocabulary-order tie-break would emit `aa`
first. -/
theorem c5_counterexample :
    topKeywords ["aa", "bb"] [1, 1] = ["bb", "aa"]
    ∧ topKeywords_claim ["aa", "bb"] [1, 1] = ["aa", "bb"]
    ∧ (["bb", "aa"] : List String) ≠ ["aa", "bb"] := by
  refine ⟨?_, ?_, by decide⟩
  · unfold topKeywords argsort
    rw [show List.range ([(1 : ℚ), 1]).length = [0, 1] from rfl,
      List.mergeSort_of_sorted (by decide)]
    decide
  · unfold topKeywords_claim
    rw [show List.range ([(1 : ℚ), 1]).length = [0, 1] from rfl,
      List.mergeSort_of_sorted (by decide)]
    decide

/-- Claim C5 as amended: per document the extractor selects the terms with
the top 10 TF-IDF weights in descending weight order with ties broken by
REVERSE vocabulary order (larger vocabulary index first, not vocabulary
order as claimed), excludes zero-weight terms, and truncates to the top 5
for storage; documents with blank text get no keywords. -/
theorem c5_selection_amended :
    (∀ (names : List String) (scores : List ℚ),
      topKeywords names scores = topKeywords_amended names scores)
    ∧ (∀ (texts : List String) (r : TfidfResult),
      (extract_keywords_tfidf texts (Except.ok r)).1 =
        (texts.zip r.rows).map (fun p =>
          if hasContent p.1 then
            String.intercalate ", " (topKeywords_amended r.feature_names p.2)
          else "")) := by
  refine ⟨topKeywords_eq_amended, ?_⟩
  intro texts r
  simp only [extract_keywords_tfidf, topKeywords_eq_amended]

/-- Claim C6: empty keywords are classified `""`; non-empty keywords with
no matching trigger are classified `Other`; the two sentinels differ; and
a document whose normalized text is blank receives an empty keyword set
from the extractor. -/
theorem c6_sentinels :
    (assignTheme "" = "")
    ∧ (∀ kw : String, kw ≠ "" →
        (∀ tp ∈ theme_patterns, themeMatches (lowercase kw) tp.2 = false) →
        assignTheme kw = "Other")
    ∧ (("" : String) ≠ "Other")
    ∧ (∀ (texts : List String) (r : TfidfResult) (i : ℕ) (t kw : String),
        texts[i]? = some t → hasContent t = false →
        ((extract_keywords_tfidf texts (Except.ok r)).1)[i]? = some kw → kw = "") := by
  refine ⟨rfl, ?_, by decide, ?_⟩
  · intro kw hne hno
    unfold assignTheme
    rw [if_neg hne]
    have hfil : theme_patterns.filter (fun tp => themeMatches (lowercase kw) tp.2) = [] := by
      rw [List.filter_eq_nil_iff]
      intro tp htp
      simp [hno tp htp]
    simp [hfil]
  · intro texts r i t kw hget hblank hkw
    simp only [extract_keywords_tfidf, List.getElem?_map] at hkw
    rcases hz : (texts.zip r.rows)[i]? with _ | p
    · rw [hz] at hkw
      simp at hkw
    · rw [hz] at hkw
      have hp1 : p.1 = t := by
        have h1 := (List.getElem?_zip_eq_some.mp hz).1
        rw [hget] at h1
        exact (Option.some_inj.mp h1).symm
      simp only [Option.map_some', Option.some.injEq] at hkw
      rw [← hkw, hp1, hblank]
      simp

/-- Witness for C6 at concrete inputs: the keyword string `"zzz"` is
non-empty and matches no trigger, so it is classified `Other`; document 0
of a fitted two-document corpus has blank text, and its extracted keyword
string is confirmed empty by the theorem. -/
theorem c6_witness :
    assignTheme "zzz" = "Other" ∧ ("" : String) = "" :=
  ⟨c6_sentinels.2.1 "zzz" (by decide) (by decide),
   c6_sentinels.2.2.2 ["", "aa"] ⟨["aa"], [[0], [1]]⟩ 0 "" "" rfl rfl rfl⟩

/-! ### Insight generation (`generate_insights.py`)

A review record carries the columns `identify_drivers_and_pain_points`
reads: bank, theme, sentiment label and star rating.  `value_counts` is
embedded as the distinct values in order of first occurrence paired with
their multiplicities and stably sorted by descending count; percentages
are exact rationals. -/

/-- One analysed review record (one dataframe row). -/
structure Row where
  bank : String
  theme : String
  sentiment_label : String
  rating : ℕ
deriving DecidableEq

/-- One driver/pain-point entry: theme, mention count, share of the source
segment. -/
structure Insight where
  theme : String
  count : ℕ
  percentage : ℚ
deriving DecidableEq

/-- `pandas.Series.value_counts`: distinct values with multiplicities,
sorted by descending count (stably, ties in first-occurrence order). -/
def valueCounts (l : List String) : List (String × ℕ) :=
  ((uniqueFirst l).map (fun t => (t, l.count t))).mergeSort
    (fun a b => decide (b.2 ≤ a.2))

/-- Python truthiness test `theme and theme != 'Other'` applied to every
tally entry before it may become an insight. -/
def eligible (t : String) : Bool := !(t == "") && !(t == "Other")

/-- Building one insight record from a tally entry and the population of
its source segment: `(count / len(segment)) * 100`. -/
def mkInsight (segLen : ℕ) (p : String × ℕ) : Insight :=
  ⟨p.1, p.2, (p.2 : ℚ) / (segLen : ℚ) * 100⟩

/-- The sentiment-pass loop body: append an insight for every eligible
tally entry (the list starts empty, no membership check in the source). -/
def seedPass (segLen : ℕ) (items : List (String × ℕ)) : List Insight :=
  items.foldl (fun acc p => if eligible p.1 then acc ++ [mkInsight segLen p] else acc) []

/-- The rating-pass loop body: append an insight for every eligible tally
entry whose theme is not already present in the accumulated list. -/
def appendPass (segLen : ℕ) (items : List (String × ℕ)) (init : List Insight) : List Insight :=
  items.foldl (fun acc p =>
    if eligible p.1 && !(acc.any (fun i => i.theme == p.1))
    then acc ++ [mkInsight segLen p] else acc) init

/-- One sentiment-segment contribution: guarded by a non-empty segment,
top 3 of the segment's theme tally. -/
def sentimentSeeds (seg : List Row) : List Insight :=
  if 0 < seg.length then
    seedPass seg.length ((valueCounts (seg.map Row.theme)).take 3)
  else []

/-- One rating-segment contribution: guarded by a non-empty segment, top 2
of the segment's theme tally appended with de-duplication by theme. -/
def ratingAppend (seg : List Row) (init : List Insight) : List Insight :=
  if 0 < seg.length then
    appendPass seg.length ((valueCounts (seg.map Row.theme)).take 2) init
  else init

/-- The bank slice `df[df['bank'] == bank_name]` (all rows when no bank is
given). -/
def bankSlice (df : List Row) : Option String → List Row
  | some b => df.filter (fun r => r.bank == b)
  | none => df

/-- The positive-sentiment segment `bank_df[bank_df['sentiment_label'] == 'POSITIVE']`. -/
def positives (df : List Row) : List Row := df.filter (fun r => r.sentiment_label == "POSITIVE")

/-- The negative-sentiment segment. -/
def negatives (df : List Row) : List Row := df.filter (fun r => r.sentiment_label == "NEGATIVE")

/-- The low-rating segment `bank_df[bank_df['rating'] <= 2]`. -/
def lowRatings (df : List Row) : List Row := df.filter (fun r => r.rating ≤ 2)

/-- The high-rating segment `bank_df[bank_df['rating'] >= 4]`. -/
def highRatings (df : List Row) : List Row := df.filter (fun r => 4 ≤ r.rating)

/-- `identify_drivers_and_pain_points`: drivers seeded from the positive
segment and extended from the high-rating segment; pain points seeded from
the negative segment and extended from the low-rating segment. -/
def identify_drivers_and_pain_points (df : List Row) (bank_name : Option String) :
    List Insight × List Insight :=
  let bank_df := bankSlice df bank_name
  let drivers0 := sentimentSeeds (positives bank_df)
  let pain0 := sentimentSeeds (negatives bank_df)
  let pain1 := ratingAppend (lowRatings bank_df) pain0
  let drivers1 := ratingAppend (highRatings bank_df) drivers0
  (drivers1, pain1)

/-- One recommendation entry. -/
structure Recommendation where
  category : String
  recommendation : String
  priority : String
deriving DecidableEq

/-- The pain-point `if/elif` chain of `generate_recommendations`. -/
def recOfPain (theme : String) : Option Recommendation :=
  if inStr "Account Access" theme then
    some ⟨"Account Access",
      "Improve login process and authentication mechanisms. Consider implementing biometric authentication and password recovery options.",
      "High"⟩
  else if inStr "Transaction Performance" theme then
    some ⟨"Performance",
      "Optimize transaction processing speed. Investigate server response times and implement caching strategies.",
      "High"⟩
  else if inStr "User Interface" theme || inStr "Experience" theme then
    some ⟨"UX/UI",
      "Redesign user interface for better usability. Conduct user testing and implement modern design patterns.",
      "Medium"⟩
  else if inStr "Customer Support" theme then
    some ⟨"Support",
      "Enhance customer support channels. Consider implementing AI chatbot for faster response times.",
      "High"⟩
  else if inStr "Reliability" theme then
    some ⟨"Stability",
      "Fix app crashes and stability issues. Implement comprehensive error handling and testing.",
      "Critical"⟩
  else none

/-- The driver loop of `generate_recommendations`: only themes containing
`Transaction Performance` yield an entry. -/
def recOfDriver (theme : String) : Option Recommendation :=
  if inStr "Transaction Performance" theme then
    some ⟨"Enhancement",
      "Leverage fast transaction processing as a competitive advantage. Market this feature prominently.",
      "Low"⟩
  else none

/-- The loop body of both recommendation loops: append the entry the rule
yields for this insight's theme, if any. -/
def recStep (f : Insight → Option Recommendation)
    (acc : List Recommendation) (p : Insight) : List Recommendation :=
  match f p with
  | some r => acc ++ [r]
  | none => acc

/-- `generate_recommendations`: pain-point recommendations first, then
driver recommendations, each loop appending in list order. -/
def generate_recommendations (df : List Row) (bank_name : String) : List Recommendation :=
  let insights := identify_drivers_and_pain_points df (some bank_name)
  let painRecs := insights.2.foldl (recStep (fun p => recOfPain p.theme)) []
  insights.1.foldl (recStep (fun d => recOfDriver d.theme)) painRecs

/-! ### Structural lemmas about the insight passes -/

lemma foldl_if_append {α β : Type} (q : α → Bool) (g : α → β) :
    ∀ (l : List α) (init : List β),
      l.foldl (fun acc x => if q x then acc ++ [g x] else acc) init
        = init ++ (l.filter q).map g := by
  intro l
  induction l with
  | nil => intro init; simp
  | cons x l ih =>
    intro init
    simp only [List.foldl_cons, List.filter_cons]
    by_cases h : q x
    · rw [if_pos h, ih, if_pos h]
      simp
    · rw [if_neg h, ih, if_neg h]

lemma foldl_recStep_append (f : Insight → Option Recommendation) :
    ∀ (l : List Insight) (init : List Recommendation),
      l.foldl (recStep f) init = init ++ l.filterMap f := by
  intro l
  induction l with
  | nil => intro init; simp
  | cons x l ih =>
    intro init
    simp only [List.foldl_cons, List.filterMap_cons]
    rcases h : f x with _ | r
    · rw [show recStep f init x = init from by simp [recStep, h], ih]
    · rw [show recStep f init x = init ++ [r] from by simp [recStep, h], ih]
      simp

lemma seedPass_eq (n : ℕ) (items : List (String × ℕ)) :
    seedPass n items = (items.filter (fun p => eligible p.1)).map (mkInsight n) := by
  unfold seedPass
  rw [foldl_if_append]
  simp

lemma uniqueFirst_nodup : ∀ l : List String, (uniqueFirst l).Nodup
  | [] => by simp [uniqueFirst]
  | x :: xs => by
    simp only [uniqueFirst, List.nodup_cons]
    refine ⟨?_, (uniqueFirst_nodup xs).filter _⟩
    intro hx
    have := List.of_mem_filter hx
    simp at this

lemma mem_uniqueFirst : ∀ (l : List String) (t : String), t ∈ uniqueFirst l ↔ t ∈ l := by
  intro l
  induction l with
  | nil => simp [uniqueFirst]
  | cons x xs ih =>
    intro t
    simp only [uniqueFirst, List.mem_cons]
    constructor
    · rintro (rfl | h)
      · exact Or.inl rfl
      · exact Or.inr ((ih t).mp (List.mem_of_mem_filter h))
    · rintro (rfl | h)
      · exact Or.inl rfl
      · by_cases hx : t = x
        · exact Or.inl hx
        · exact Or.inr (List.mem_filter.mpr ⟨(ih t).mpr h, by simp [hx]⟩)

lemma mem_valueCounts {l : List String} {t : String} {c : ℕ}
    (h : (t, c) ∈ valueCounts l) : t ∈ l ∧ c = l.count t := by
  have hmem : (t, c) ∈ (uniqueFirst l).map (fun u => (u, l.count u)) :=
    List.mem_mergeSort.mp h
  rcases List.mem_map.mp hmem with ⟨u, hu, he⟩
  have ht : u = t := congrArg Prod.fst he
  have hc : c = l.count u := (congrArg Prod.snd he).symm
  subst ht
  exact ⟨(mem_uniqueFirst l u).mp hu, hc⟩

lemma valueCounts_fst_nodup (l : List String) : ((valueCounts l).map Prod.fst).Nodup := by
  have hperm : List.Perm (valueCounts l) ((uniqueFirst l).map (fun u => (u, l.count u))) :=
    List.mergeSort_perm _ _
  have he : (((uniqueFirst l).map (fun u => (u, l.count u))).map Prod.fst) = uniqueFirst l := by
    rw [List.map_map]
    exact List.map_id _
  have h2 : (((uniqueFirst l).map (fun u => (u, l.count u))).map Prod.fst).Nodup := by
    rw [he]
    exact uniqueFirst_nodup l
  exact (hperm.map Prod.fst).symm.nodup h2

lemma valueCounts_sorted (l : List String) :
    (valueCounts l).Pairwise (fun a b => b.2 ≤ a.2) := by
  have h := @List.sorted_mergeSort (String × ℕ) (fun a b => decide (b.2 ≤ a.2))
    (by intro a b c h1 h2; simp only [decide_eq_true_eq] at *; omega)
    (by intro a b; simp only [Bool.or_eq_true, decide_eq_true_eq]; omega)
    ((uniqueFirst l).map (fun u => (u, l.count u)))
  exact h.imp (by intro a b hab; simpa using hab)

lemma count_pos_of_mem {l : List String} {t : String} (h : t ∈ l) : 0 < l.count t :=
  List.count_pos_iff.mpr h

lemma mem_sentimentSeeds {seg : List Row} {i : Insight} (h : i ∈ sentimentSeeds seg) :
    (i.theme, i.count) ∈ (valueCounts (seg.map Row.theme)).take 3
    ∧ eligible i.theme = true
    ∧ i.percentage = (i.count : ℚ) / (seg.length : ℚ) * 100 := by
  unfold sentimentSeeds at h
  by_cases hlen : 0 < seg.length
  · rw [if_pos hlen, seedPass_eq] at h
    rcases List.mem_map.mp h with ⟨q, hq, he⟩
    have hel : eligible q.1 = true := by simpa using (List.mem_filter.mp hq).2
    have hq' : q ∈ (valueCounts (seg.map Row.theme)).take 3 := (List.mem_filter.mp hq).1
    subst he
    exact ⟨by simpa [mkInsight] using hq', by simpa [mkInsight] using hel, by simp [mkInsight]⟩
  · rw [if_neg hlen] at h
    exact absurd h (by simp)

lemma sentimentSeeds_theme_nodup (seg : List Row) :
    ((sentimentSeeds seg).map Insight.theme).Nodup := by
  unfold sentimentSeeds
  by_cases hlen : 0 < seg.length
  · rw [if_pos hlen, seedPass_eq, List.map_map]
    have he : (Insight.theme ∘ mkInsight seg.length) = Prod.fst := by
      funext p
      simp [mkInsight]
    rw [he]
    refine List.Nodup.sublist ?_ (valueCounts_fst_nodup (seg.map Row.theme))
    exact List.Sublist.map Prod.fst
      ((List.filter_sublist _).trans (List.take_sublist _ _))
  · rw [if_neg hlen]
    simp

lemma sentimentSeeds_length_le (seg : List Row) : (sentimentSeeds seg).length ≤ 3 := by
  unfold sentimentSeeds
  by_cases hlen : 0 < seg.length
  · rw [if_pos hlen, seedPass_eq]
    calc ((((valueCounts (seg.map Row.theme)).take 3).filter _).map _).length
        ≤ ((valueCounts (seg.map Row.theme)).take 3).length := by
          rw [List.length_map]
          exact (List.filter_sublist _).length_le
      _ ≤ 3 := List.length_take_le _ _
  · rw [if_neg hlen]
    simp

lemma appendPass_split (n : ℕ) :
    ∀ (items : List (String × ℕ)) (init : List Insight),
      ∃ extras, appendPass n items init = init ++ extras
        ∧ extras.length ≤ items.length
        ∧ (∀ i ∈ extras,
            (∃ p, p ∈ items ∧ eligible p.1 = true ∧ i = mkInsight n p)
            ∧ i.theme ∉ init.map Insight.theme)
        ∧ ((init.map Insight.theme).Nodup → ((init ++ extras).map Insight.theme).Nodup) := by
  intro items
  induction items with
  | nil =>
    intro init
    exact ⟨[], by simp [appendPass], by simp, by simp, by simp⟩
  | cons p items ih =>
    intro init
    unfold appendPass
    simp only [List.foldl_cons]
    by_cases hc : (eligible p.1 && !(init.any (fun i => i.theme == p.1))) = true
    · rw [if_pos hc]
      have hc2 : eligible p.1 = true ∧ (init.any fun i => i.theme == p.1) = false := by
        simpa [Bool.and_eq_true, Bool.not_eq_true'] using hc
      have hel : eligible p.1 = true := hc2.1
      have hnotmem : p.1 ∉ init.map Insight.theme := by
        have h2 := hc2.2
        rw [List.any_eq_false] at h2
        intro hmem'
        rcases List.mem_map.mp hmem' with ⟨j, hj, hjt⟩
        exact absurd (by simp [hjt] : (j.theme == p.1) = true) (by simpa using h2 j hj)
      obtain ⟨extras, he, hlen, hmem, hnd⟩ := ih (init ++ [mkInsight n p])
      refine ⟨mkInsight n p :: extras, ?_, ?_, ?_, ?_⟩
      · show appendPass n items (init ++ [mkInsight n p]) = init ++ mkInsight n p :: extras
        rw [he, List.append_assoc]
        simp
      · simpa using Nat.succ_le_succ hlen
      · intro i hi
        rcases List.mem_cons.mp hi with rfl | hi
        · exact ⟨⟨p, List.mem_cons_self p items, hel, rfl⟩, by simpa [mkInsight] using hnotmem⟩
        · obtain ⟨⟨q, hq, hqel, hqe⟩, hthm⟩ := hmem i hi
          refine ⟨⟨q, List.mem_cons_of_mem p hq, hqel, hqe⟩, ?_⟩
          intro hbad
          refine hthm ?_
          rw [List.map_append]
          exact List.mem_append_left _ hbad
      · intro hinit
        have hstep : ((init ++ [mkInsight n p]).map Insight.theme).Nodup := by
          rw [List.map_append]
          rw [List.nodup_append]
          refine ⟨hinit, by simp, ?_⟩
          intro a ha hb
          simp only [List.map_cons, List.map_nil, List.mem_cons, List.not_mem_nil,
            or_false] at hb
          subst hb
          exact hnotmem (by simpa [mkInsight] using ha)
        have h3 := hnd hstep
        rw [List.append_assoc] at h3
        simpa using h3
    · rw [if_neg hc]
      obtain ⟨extras, he, hlen, hmem, hnd⟩ := ih init
      refine ⟨extras, by rw [← he]; rfl, le_trans hlen (by simp), ?_, hnd⟩
      intro i hi
      obtain ⟨⟨q, hq, hqel, hqe⟩, hthm⟩ := hmem i hi
      exact ⟨⟨q, List.mem_cons_of_mem p hq, hqel, hqe⟩, hthm⟩

lemma ratingAppend_split (seg : List Row) (init : List Insight) :
    ∃ extras, ratingAppend seg init = init ++ extras
      ∧ extras.length ≤ 2
      ∧ (∀ i ∈ extras,
          (i.theme, i.count) ∈ (valueCounts (seg.map Row.theme)).take 2
          ∧ eligible i.theme = true
          ∧ i.percentage = (i.count : ℚ) / (seg.length : ℚ) * 100
          ∧ i.theme ∉ init.map Insight.theme)
      ∧ ((init.map Insight.theme).Nodup → ((init ++ extras).map Insight.theme).Nodup) := by
  unfold ratingAppend
  by_cases hlen : 0 < seg.length
  · rw [if_pos hlen]
    obtain ⟨extras, he, hl, hmem, hnd⟩ :=
      appendPass_split seg.length ((valueCounts (seg.map Row.theme)).take 2) init
    refine ⟨extras, he, le_trans hl (List.length_take_le _ _), ?_, hnd⟩
    intro i hi
    obtain ⟨⟨q, hq, hqel, hqe⟩, hthm⟩ := hmem i hi
    subst hqe
    exact ⟨by simpa [mkInsight] using hq, by simpa [mkInsight] using hqel,
      by simp [mkInsight], by simpa [mkInsight] using hthm⟩
  · rw [if_neg hlen]
    exact ⟨[], by simp, by simp, by simp, by simp⟩

lemma insight_count_pos_of_mem_valueCounts {l : List Row} {t : String} {c : ℕ} {k : ℕ}
    (h : (t, c) ∈ (valueCounts (l.map Row.theme)).take k) :
    0 < c ∧ 0 < l.length := by
  have hmem := mem_valueCounts ((List.take_sublist _ _).subset h)
  have ht : t ∈ l.map Row.theme := hmem.1
  have hc : 0 < c := hmem.2 ▸ count_pos_of_mem ht
  have hl : 0 < l.length := by
    rcases List.mem_map.mp ht with ⟨r, hr, _⟩
    exact List.length_pos.mpr (List.ne_nil_of_mem hr)
  exact ⟨hc, hl⟩

lemma pct_pos {c n : ℕ} (hc : 0 < c) (hn : 0 < n) : (0 : ℚ) < (c : ℚ) / (n : ℚ) * 100 := by
  apply mul_pos
  · apply div_pos
    · exact_mod_cast hc
    · exact_mod_cast hn
  · norm_num

lemma valueCounts_eq_of_sorted {l : List String} {base : List (String × ℕ)}
    (hbase : (uniqueFirst l).map (fun t => (t, l.count t)) = base)
    (hsorted : base.Pairwise (fun a b => (decide (b.2 ≤ a.2)) = true)) :
    valueCounts l = base := by
  unfold valueCounts
  rw [hbase]
  exact List.mergeSort_of_sorted hsorted

lemma eligible_iff (t : String) : eligible t = true ↔ t ≠ "" ∧ t ≠ "Other" := by
  simp [eligible]

lemma identify_pain_eq (df : List Row) (b : Option String) :
    (identify_drivers_and_pain_points df b).2 =
      ratingAppend (lowRatings (bankSlice df b)) (sentimentSeeds (negatives (bankSlice df b))) :=
  rfl

lemma identify_drivers_eq (df : List Row) (b : Option String) :
    (identify_drivers_and_pain_points df b).1 =
      ratingAppend (highRatings (bankSlice df b)) (sentimentSeeds (positives (bankSlice df b))) :=
  rfl

/-- Concrete one-bank negative-review stream for the C2 counterexample:
`Other` has the highest negative count (4), followed by eligible themes
with counts 3, 2 and 1; all ratings are 3 so the rating passes are empty. -/
def c2df : List Row :=
  [⟨"CBE", "Other", "NEGATIVE", 3⟩, ⟨"CBE", "Other", "NEGATIVE", 3⟩,
   ⟨"CBE", "Other", "NEGATIVE", 3⟩, ⟨"CBE", "Other", "NEGATIVE", 3⟩,
   ⟨"CBE", "Account Access Issues", "NEGATIVE", 3⟩,
   ⟨"CBE", "Account Access Issues", "NEGATIVE", 3⟩,
   ⟨"CBE", "Account Access Issues", "NEGATIVE", 3⟩,
   ⟨"CBE", "Customer Support", "NEGATIVE", 3⟩, ⟨"CBE", "Customer Support", "NEGATIVE", 3⟩,
   ⟨"CBE", "App Reliability", "NEGATIVE", 3⟩]

/-- Claim C2 counterexample: on `c2df` the negative tally is
`Other:4, Account Access Issues:3, Customer Support:2, App Reliability:1`.
The claim's reading (tally excludes `Other` before the top-3 cut) yields
the three themes `Account Access Issues, Customer Support, App
Reliability`, but the code takes the top 3 of the full tally first, so
`Other` occupies a slot and `App Reliability` is displaced: the emitted
pain-point list has only two themes. -/
theorem c2_counterexample :
    ((identify_drivers_and_pain_points c2df (some "CBE")).2).map Insight.theme
        = ["Account Access Issues", "Customer Support"]
    ∧ (((valueCounts (c2df.map Row.theme)).filter (fun p => eligible p.1)).take 3).map Prod.fst
        = ["Account Access Issues", "Customer Support", "App Reliability"]
    ∧ "App Reliability" ∉
        ((identify_drivers_and_pain_points c2df (some "CBE")).2).map Insight.theme := by
  have hvc : valueCounts (c2df.map Row.theme)
      = [("Other", 4), ("Account Access Issues", 3), ("Customer Support", 2),
         ("App Reliability", 1)] :=
    valueCounts_eq_of_sorted (by decide) (by decide)
  have hpain : (identify_drivers_and_pain_points c2df (some "CBE")).2
      = sentimentSeeds c2df := rfl
  have hseed : sentimentSeeds c2df
      = seedPass c2df.length ((valueCounts (c2df.map Row.theme)).take 3) := by
    unfold sentimentSeeds
    rw [if_pos (by decide)]
  refine ⟨?_, ?_, ?_⟩
  · rw [hpain, hseed, hvc]
    decide
  · rw [hvc]
    decide
  · rw [hpain, hseed, hvc]
    decide

/-- Claim C2 as amended: the seed lists are obtained by taking the top 3
entries of the FULL per-segment tally (sorted by descending count, and
still containing `""` and `Other`) and only then removing ineligible
entries — so `""` and `Other` never appear in the lists, but they can
occupy top-3 slots and displace eligible themes; symmetrically for
drivers. -/
theorem c2_top3_after_filter (df : List Row) (b : String) :
    (∃ extras, (identify_drivers_and_pain_points df (some b)).2 =
        (((valueCounts ((negatives (bankSlice df (some b))).map Row.theme)).take 3).filter
            (fun p => eligible p.1)).map
          (mkInsight (negatives (bankSlice df (some b))).length) ++ extras)
    ∧ (∃ extras, (identify_drivers_and_pain_points df (some b)).1 =
        (((valueCounts ((positives (bankSlice df (some b))).map Row.theme)).take 3).filter
            (fun p => eligible p.1)).map
          (mkInsight (positives (bankSlice df (some b))).length) ++ extras)
    ∧ (∀ l : List String, (valueCounts l).Pairwise (fun a b => b.2 ≤ a.2))
    ∧ (∀ i ∈ (identify_drivers_and_pain_points df (some b)).2,
        i.theme ≠ "" ∧ i.theme ≠ "Other")
    ∧ (∀ i ∈ (identify_drivers_and_pain_points df (some b)).1,
        i.theme ≠ "" ∧ i.theme ≠ "Other") := by
  have hseedn : sentimentSeeds (negatives (bankSlice df (some b)))
      = (((valueCounts ((negatives (bankSlice df (some b))).map Row.theme)).take 3).filter
          (fun p => eligible p.1)).map
        (mkInsight (negatives (bankSlice df (some b))).length) := by
    unfold sentimentSeeds
    by_cases h : 0 < (negatives (bankSlice df (some b))).length
    · rw [if_pos h, seedPass_eq]
    · rw [if_neg h]
      have : negatives (bankSlice df (some b)) = [] := by
        cases hn : negatives (bankSlice df (some b)) with
        | nil => rfl
        | cons x xs => rw [hn] at h; simp at h
      rw [this]
      simp [valueCounts, uniqueFirst]
  have hseedp : sentimentSeeds (positives (bankSlice df (some b)))
      = (((valueCounts ((positives (bankSlice df (some b))).map Row.theme)).take 3).filter
          (fun p => eligible p.1)).map
        (mkInsight (positives (bankSlice df (some b))).length) := by
    unfold sentimentSeeds
    by_cases h : 0 < (positives (bankSlice df (some b))).length
    · rw [if_pos h, seedPass_eq]
    · rw [if_neg h]
      have : positives (bankSlice df (some b)) = [] := by
        cases hn : positives (bankSlice df (some b)) with
        | nil => rfl
        | cons x xs => rw [hn] at h; simp at h
      rw [this]
      simp [valueCounts, uniqueFirst]
  obtain ⟨pExtras, hpe, _, hpmem, _⟩ :=
    ratingAppend_split (lowRatings (bankSlice df (some b)))
      (sentimentSeeds (negatives (bankSlice df (some b))))
  obtain ⟨dExtras, hde, _, hdmem, _⟩ :=
    ratingAppend_split (highRatings (bankSlice df (some b)))
      (sentimentSeeds (positives (bankSlice df (some b))))
  refine ⟨⟨pExtras, ?_⟩, ⟨dExtras, ?_⟩, valueCounts_sorted, ?_, ?_⟩
  · rw [identify_pain_eq, hpe, hseedn]
  · rw [identify_drivers_eq, hde, hseedp]
  · intro i hi
    rw [identify_pain_eq, hpe] at hi
    rcases List.mem_append.mp hi with hi | hi
    · exact (eligible_iff i.theme).mp (mem_sentimentSeeds hi).2.1
    · exact (eligible_iff i.theme).mp (hpmem i hi).2.1
  · intro i hi
    rw [identify_drivers_eq, hde] at hi
    rcases List.mem_append.mp hi with hi | hi
    · exact (eligible_iff i.theme).mp (mem_sentimentSeeds hi).2.1
    · exact (eligible_iff i.theme).mp (hdmem i hi).2.1

/-- Witness for C2 (amended) at a concrete input: instantiation of the
amended theorem on `c2df`. -/
theorem c2_witness :
    (∃ extras, (identify_drivers_and_pain_points c2df (some "CBE")).2 =
        (((valueCounts ((negatives (bankSlice c2df (some "CBE"))).map Row.theme)).take 3).filter
            (fun p => eligible p.1)).map
          (mkInsight (negatives (bankSlice c2df (some "CBE"))).length) ++ extras)
    ∧ (∀ i ∈ (identify_drivers_and_pain_points c2df (some "CBE")).2,
        i.theme ≠ "" ∧ i.theme ≠ "Other") :=
  ⟨(c2_top3_after_filter c2df "CBE").1, (c2_top3_after_filter c2df "CBE").2.2.2.1⟩

/-- Claim C3: every insight's percentage is `100 × count / population` of
its OWN source segment — sentiment-pass entries divide by the
positive/negative segment size, rating-pass entries divide by the
high/low-rating segment size. -/
theorem c3_segment_denominators (df : List Row) (b : String) :
    ∃ dExtra pExtra,
      (identify_drivers_and_pain_points df (some b)).1
          = sentimentSeeds (positives (bankSlice df (some b))) ++ dExtra
      ∧ (identify_drivers_and_pain_points df (some b)).2
          = sentimentSeeds (negatives (bankSlice df (some b))) ++ pExtra
      ∧ (∀ i ∈ sentimentSeeds (positives (bankSlice df (some b))),
          i.percentage = (i.count : ℚ) / ((positives (bankSlice df (some b))).length : ℚ) * 100)
      ∧ (∀ i ∈ dExtra,
          i.percentage = (i.count : ℚ) / ((highRatings (bankSlice df (some b))).length : ℚ) * 100)
      ∧ (∀ i ∈ sentimentSeeds (negatives (bankSlice df (some b))),
          i.percentage = (i.count : ℚ) / ((negatives (bankSlice df (some b))).length : ℚ) * 100)
      ∧ (∀ i ∈ pExtra,
          i.percentage = (i.count : ℚ) / ((lowRatings (bankSlice df (some b))).length : ℚ) * 100) := by
  obtain ⟨pExtras, hpe, _, hpmem, _⟩ :=
    ratingAppend_split (lowRatings (bankSlice df (some b)))
      (sentimentSeeds (negatives (bankSlice df (some b))))
  obtain ⟨dExtras, hde, _, hdmem, _⟩ :=
    ratingAppend_split (highRatings (bankSlice df (some b)))
      (sentimentSeeds (positives (bankSlice df (some b))))
  refine ⟨dExtras, pExtras, ?_, ?_, ?_, ?_, ?_, ?_⟩
  · rw [identify_drivers_eq, hde]
  · rw [identify_pain_eq, hpe]
  · exact fun i hi => (mem_sentimentSeeds hi).2.2
  · exact fun i hi => (hdmem i hi).2.2.1
  · exact fun i hi => (mem_sentimentSeeds hi).2.2
  · exact fun i hi => (hpmem i hi).2.2.1

/-- Witness for C3: instantiation on the concrete stream `c2df`. -/
theorem c3_witness :
    ∃ dExtra pExtra,
      (identify_drivers_and_pain_points c2df (some "CBE")).1
          = sentimentSeeds (positives (bankSlice c2df (some "CBE"))) ++ dExtra
      ∧ (identify_drivers_and_pain_points c2df (some "CBE")).2
          = sentimentSeeds (negatives (bankSlice c2df (some "CBE"))) ++ pExtra
      ∧ (∀ i ∈ sentimentSeeds (positives (bankSlice c2df (some "CBE"))),
          i.percentage = (i.count : ℚ) / ((positives (bankSlice c2df (some "CBE"))).length : ℚ) * 100)
      ∧ (∀ i ∈ dExtra,
          i.percentage = (i.count : ℚ) / ((highRatings (bankSlice c2df (some "CBE"))).length : ℚ) * 100)
      ∧ (∀ i ∈ sentimentSeeds (negatives (bankSlice c2df (some "CBE"))),
          i.percentage = (i.count : ℚ) / ((negatives (bankSlice c2df (some "CBE"))).length : ℚ) * 100)
      ∧ (∀ i ∈ pExtra,
          i.percentage = (i.count : ℚ) / ((lowRatings (bankSlice c2df (some "CBE"))).length : ℚ) * 100) :=
  c3_segment_denominators c2df "CBE"

/-- Claim C4: within each emitted list no theme occurs twice; the
rating-pass entries are appended after the unchanged sentiment-pass
entries and only for themes not already present (first-writer-wins). -/
theorem c4_dedup_first_writer_wins (df : List Row) (b : String) :
    (((identify_drivers_and_pain_points df (some b)).1.map Insight.theme).Nodup
      ∧ ((identify_drivers_and_pain_points df (some b)).2.map Insight.theme).Nodup)
    ∧ (∃ extras, (identify_drivers_and_pain_points df (some b)).2
          = sentimentSeeds (negatives (bankSlice df (some b))) ++ extras
        ∧ ∀ i ∈ extras, i.theme ∉
            (sentimentSeeds (negatives (bankSlice df (some b)))).map Insight.theme)
    ∧ (∃ extras, (identify_drivers_and_pain_points df (some b)).1
          = sentimentSeeds (positives (bankSlice df (some b))) ++ extras
        ∧ ∀ i ∈ extras, i.theme ∉
            (sentimentSeeds (positives (bankSlice df (some b)))).map Insight.theme) := by
  obtain ⟨pExtras, hpe, _, hpmem, hpnd⟩ :=
    ratingAppend_split (lowRatings (bankSlice df (some b)))
      (sentimentSeeds (negatives (bankSlice df (some b))))
  obtain ⟨dExtras, hde, _, hdmem, hdnd⟩ :=
    ratingAppend_split (highRatings (bankSlice df (some b)))
      (sentimentSeeds (positives (bankSlice df (some b))))
  refine ⟨⟨?_, ?_⟩, ⟨pExtras, ?_, ?_⟩, ⟨dExtras, ?_, ?_⟩⟩
  · rw [identify_drivers_eq, hde]
    exact hdnd (sentimentSeeds_theme_nodup _)
  · rw [identify_pain_eq, hpe]
    exact hpnd (sentimentSeeds_theme_nodup _)
  · rw [identify_pain_eq, hpe]
  · exact fun i hi => (hpmem i hi).2.2.2
  · rw [identify_drivers_eq, hde]
  · exact fun i hi => (hdmem i hi).2.2.2

/-- Witness for C4: instantiation on the concrete stream `c2df`. -/
theorem c4_witness :
    ((identify_drivers_and_pain_points c2df (some "CBE")).1.map Insight.theme).Nodup
    ∧ ((identify_drivers_and_pain_points c2df (some "CBE")).2.map Insight.theme).Nodup :=
  (c4_dedup_first_writer_wins c2df "CBE").1

/-- Claim C10: each list holds at most 5 entries (at most 3 sentiment-pass
seeds plus at most 2 rating-pass additions), and every emitted insight has
count at least 1 and strictly positive percentage. -/
theorem c10_size_and_positivity (df : List Row) (b : Option String) :
    ((identify_drivers_and_pain_points df b).1.length ≤ 5
      ∧ (identify_drivers_and_pain_points df b).2.length ≤ 5)
    ∧ (∀ i ∈ (identify_drivers_and_pain_points df b).1,
        1 ≤ i.count ∧ 0 < i.percentage)
    ∧ (∀ i ∈ (identify_drivers_and_pain_points df b).2,
        1 ≤ i.count ∧ 0 < i.percentage) := by
  obtain ⟨pExtras, hpe, hplen, hpmem, _⟩ :=
    ratingAppend_split (lowRatings (bankSlice df b))
      (sentimentSeeds (negatives (bankSlice df b)))
  obtain ⟨dExtras, hde, hdlen, hdmem, _⟩ :=
    ratingAppend_split (highRatings (bankSlice df b))
      (sentimentSeeds (positives (bankSlice df b)))
  have hseed : ∀ seg : List Row, ∀ i ∈ sentimentSeeds seg, 1 ≤ i.count ∧ 0 < i.percentage := by
    intro seg i hi
    obtain ⟨hmem, _, hpct⟩ := mem_sentimentSeeds hi
    obtain ⟨hc, hl⟩ := insight_count_pos_of_mem_valueCounts hmem
    exact ⟨hc, hpct ▸ pct_pos hc hl⟩
  have hextra : ∀ (seg : List Row) (init : List Insight) (extras : List Insight),
      (∀ i ∈ extras,
        (i.theme, i.count) ∈ (valueCounts (seg.map Row.theme)).take 2
        ∧ eligible i.theme = true
        ∧ i.percentage = (i.count : ℚ) / (seg.length : ℚ) * 100
        ∧ i.theme ∉ init.map Insight.theme) →
      ∀ i ∈ extras, 1 ≤ i.count ∧ 0 < i.percentage := by
    intro seg init extras hmem i hi
    obtain ⟨hm, _, hpct, _⟩ := hmem i hi
    obtain ⟨hc, hl⟩ := insight_count_pos_of_mem_valueCounts hm
    exact ⟨hc, hpct ▸ pct_pos hc hl⟩
  refine ⟨⟨?_, ?_⟩, ?_, ?_⟩
  · rw [identify_drivers_eq, hde, List.length_append]
    have := sentimentSeeds_length_le (positives (bankSlice df b))
    omega
  · rw [identify_pain_eq, hpe, List.length_append]
    have := sentimentSeeds_length_le (negatives (bankSlice df b))
    omega
  · intro i hi
    rw [identify_drivers_eq, hde] at hi
    rcases List.mem_append.mp hi with hi | hi
    · exact hseed _ i hi
    · exact hextra _ _ dExtras hdmem i hi
  · intro i hi
    rw [identify_pain_eq, hpe] at hi
    rcases List.mem_append.mp hi with hi | hi
    · exact hseed _ i hi
    · exact hextra _ _ pExtras hpmem i hi

/-- Witness for C10: instantiation on the concrete stream `c2df`. -/
theorem c10_witness :
    (identify_drivers_and_pain_points c2df (some "CBE")).2.length ≤ 5
    ∧ (∀ i ∈ (identify_drivers_and_pain_points c2df (some "CBE")).2,
        1 ≤ i.count ∧ 0 < i.percentage) :=
  ⟨(c10_size_and_positivity c2df (some "CBE")).1.2,
   (c10_size_and_positivity c2df (some "CBE")).2.2⟩

/-- Claim C8: the recommendation sequence is exactly the pain-point list
mapped through the `if/elif` chain (in pain-point order, at most one entry
per pain point) followed by the driver list mapped through the driver
rule, with no cross-list de-duplication; the driver rule fires exactly on
themes containing `Transaction Performance` and always with priority
`Low`. -/
theorem c8_recommendation_order (df : List Row) (b : String) :
    (generate_recommendations df b
        = ((identify_drivers_and_pain_points df (some b)).2).filterMap
            (fun p => recOfPain p.theme)
          ++ ((identify_drivers_and_pain_points df (some b)).1).filterMap
            (fun d => recOfDriver d.theme))
    ∧ (∀ (t : String) (r : Recommendation), recOfDriver t = some r →
        inStr "Transaction Performance" t = true ∧ r.priority = "Low")
    ∧ (∀ t : String, inStr "Transaction Performance" t = true → recOfDriver t ≠ none)
    ∧ ((((identify_drivers_and_pain_points df (some b)).2).filterMap
          (fun p => recOfPain p.theme)).length
        ≤ ((identify_drivers_and_pain_points df (some b)).2).length) := by
  refine ⟨?_, ?_, ?_, List.length_filterMap_le _ _⟩
  · unfold generate_recommendations
    simp only [foldl_recStep_append (fun p : Insight => recOfPain p.theme),
      foldl_recStep_append (fun d : Insight => recOfDriver d.theme),
      List.nil_append]
  · intro t r h
    unfold recOfDriver at h
    by_cases hc : inStr "Transaction Performance" t = true
    · rw [if_pos hc] at h
      cases h
      exact ⟨hc, rfl⟩
    · rw [if_neg (by simp [hc])] at h
      cases h
  · intro t hc
    unfold recOfDriver
    rw [if_pos hc]
    simp

/-- Witness for C8: the driver rule applied at the concrete theme
`Transaction Performance` yields the `Low`-priority marketing entry, and
the order law instantiated on the concrete stream `c2df`. -/
theorem c8_witness :
    (inStr "Transaction Performance" "Transaction Performance" = true
      ∧ (Recommendation.mk "Enhancement"
          "Leverage fast transaction processing as a competitive advantage. Market this feature prominently."
          "Low").priority = "Low")
    ∧ generate_recommendations c2df "CBE"
        = ((identify_drivers_and_pain_points c2df (some "CBE")).2).filterMap
            (fun p => recOfPain p.theme)
          ++ ((identify_drivers_and_pain_points c2df (some "CBE")).1).filterMap
            (fun d => recOfDriver d.theme) :=
  ⟨(c8_recommendation_order c2df "CBE").2.1 "Transaction Performance" _ rfl,
   (c8_recommendation_order c2df "CBE").1⟩

lemma map_assign_zip_filter (p : String → Bool) :
    ∀ (bs ks : List String),
      (((bs.zip ks).filter (fun r => p r.1)).map Prod.snd).map assignTheme
        = ((bs.zip (ks.map assignTheme)).filter (fun r => p r.1)).map Prod.snd := by
  intro bs
  induction bs with
  | nil => intro ks; simp
  | cons b bs ih =>
    intro ks
    cases ks with
    | nil => simp
    | cons k ks =>
      simp only [List.zip_cons_cons, List.filter_cons, List.map_cons]
      by_cases h : p b
      · simp only [h, if_pos]
        simp [ih]
      · simp only [h]
        simp [ih]

/-- Claim C9: the per-bank invocation assigns each of a bank's reviews
exactly the theme the global classification assigns it — the per-bank
theme list equals the global theme list restricted to that bank's rows,
each entry a pure function of the row's own keyword string. -/
theorem c9_per_bank_refines_global (banks keywords_list : List String) (b : String)
    (ts : List String)
    (h : (b, ts) ∈ identify_themes_by_bank banks keywords_list) :
    ts = ((banks.zip (identify_themes_manual keywords_list)).filter
        (fun r => r.1 == b)).map Prod.snd := by
  unfold identify_themes_by_bank at h
  rcases List.mem_map.mp h with ⟨b', hb', he⟩
  have hb : b' = b := congrArg Prod.fst he
  have hts : ts = identify_themes_manual
      (((banks.zip keywords_list).filter (fun r => r.1 == b')).map Prod.snd) :=
    (congrArg Prod.snd he).symm
  rw [hts, hb]
  unfold identify_themes_manual
  exact map_assign_zip_filter (fun x => x == b) banks keywords_list

/-- Witness for C9 on a concrete two-bank frame: bank `CBE` owns rows 0
and 2, and its per-bank themes equal the global themes at those rows. -/
theorem c9_witness :
    (["Account Access Issues", ""] : List String)
      = (((["CBE", "BOA", "CBE"].zip
            (identify_themes_manual ["login", "support", ""])).filter
          (fun r => r.1 == "CBE")).map Prod.snd) :=
  c9_per_bank_refines_global ["CBE", "BOA", "CBE"] ["login", "support", ""] "CBE"
    ["Account Access Issues", ""] (by decide)

end BankReviews
